import Mathlib

/-!
Verification of the itinerary generation-and-enrichment pipeline of
`app.py` (AI travel planner).

The Python source is shallowly embedded:
* Python floats are modelled as exact rationals (`ℚ`);
* each HTTP call is an input of the embedded function (`Except Unit _`
  for "transport error or response"), since the network is external;
* a Python function that can return `None` returns an `Option`;
* the Streamlit presentation layer (warnings, map layers, banners) is out
  of scope, as in the specification.
-/

set_option autoImplicit false

/-! ## Generic helpers mirroring Python primitives -/

/-- Replace the element at index `i` (no-op when out of bounds), as in
`xs[i] = f(xs[i])`. -/
def updateAt {α : Type} (i : Nat) (f : α → α) : List α → List α
  | [] => []
  | x :: xs =>
    match i with
    | 0 => f x :: xs
    | n + 1 => x :: updateAt n f xs

/-- Python `s.replace(pat, rep)` on character lists, scanning left to right
and never rescanning a replacement.  The fuel argument bounds the number of
scanning steps; `pyReplace` below supplies `s.length`, which is exact because
every step consumes at least one character.  (Python's special behaviour for
an empty pattern is irrelevant: the source only replaces nonempty patterns,
and for an empty pattern this model leaves the string unchanged.) -/
def pyReplaceF : Nat → List Char → List Char → List Char → List Char
  | 0, _, _, s => s
  | fuel + 1, pat, rep, s =>
    if pat ≠ [] ∧ pat.isPrefixOf s then
      rep ++ pyReplaceF fuel pat rep (s.drop pat.length)
    else
      match s with
      | [] => []
      | c :: cs => c :: pyReplaceF fuel pat rep cs

/-- Python `s.replace(pat, rep)`. -/
def pyReplace (pat rep s : List Char) : List Char :=
  pyReplaceF s.length pat rep s

/-- Python `s.strip()`: drop whitespace from both ends. -/
def pyStrip (s : List Char) : List Char :=
  ((s.dropWhile Char.isWhitespace).reverse.dropWhile Char.isWhitespace).reverse

/-- The backquote character (code point 96). -/
def backtickChar : Char := Char.ofNat 96

/-- First occurrence of each element, in first-seen order; `seen` collects the
elements already emitted.  This is the key order of a Python (3.7+) dict built
by insertion. -/
def firstSeenAux {α : Type} [DecidableEq α] (seen : List α) : List α → List α
  | [] => []
  | d :: rest =>
    if d ∈ seen then firstSeenAux seen rest
    else d :: firstSeenAux (d :: seen) rest

/-- The distinct elements of `l` in order of first appearance. -/
def firstSeen {α : Type} [DecidableEq α] (l : List α) : List α :=
  firstSeenAux [] l

/-- Python `max(b :: l, key := f)`: the first element attaining the maximal
key.  `max` keeps the current best unless a strictly greater key appears. -/
def pyMaxGo {α : Type} (f : α → Nat) : α → List α → α
  | b, [] => b
  | b, x :: xs => pyMaxGo f (if f x > f b then x else b) xs

/-! ## Polyline decoder (`decode_polyline` in `get_directions_and_route`) -/

/-- The inner `while True` loop of `decode_polyline`: reads characters,
accumulating `result |= (byte & 0x1f) << shift` until `byte >= 0x20` fails.
`byte = ord(c) - 63` is an arbitrary-precision Python int, so `byte & 0x1f`
is the two's-complement AND, i.e. `byte mod 32` (a value in `[0, 32)`).
Running off the end of the string is Python's `IndexError`, modelled as
`none`. -/
def parseVarintAux (shift result : Nat) : List Char → Option (Nat × List Char)
  | [] => none
  | c :: rest =>
    let byte : Int := (c.toNat : Int) - 63
    let result' := result ||| ((byte % 32).toNat <<< shift)
    if 32 ≤ byte then parseVarintAux (shift + 5) result' rest
    else some (result', rest)

/-- One variable-length integer, returning the remaining characters. -/
def parseVarint (s : List Char) : Option (Nat × List Char) :=
  parseVarintAux 0 0 s

/-- `~(result >> 1) if result & 1 else result >> 1`; Python `~n` is `-n - 1`
and `>> 1` on a nonnegative int is division by two. -/
def zigzagDecode (r : Nat) : Int :=
  if r &&& 1 ≠ 0 then -((r >>> 1 : Nat) : Int) - 1 else ((r >>> 1 : Nat) : Int)

/-- The outer `while index < len(polyline_str)` loop: two varints per point
(latitude delta then longitude delta), added to the running totals, emitting
`(lng / 1e5, lat / 1e5)`.  Each iteration consumes at least one character, so
fuel `s.length` never runs out; `none` is an `IndexError` inside an
iteration. -/
def decodeAux : Nat → Int → Int → List Char → Option (List (ℚ × ℚ))
  | _, _, _, [] => some []
  | 0, _, _, _ :: _ => none
  | fuel + 1, lat, lng, c :: cs =>
    match parseVarint (c :: cs) with
    | none => none
    | some (r1, rest1) =>
      match parseVarint rest1 with
      | none => none
      | some (r2, rest2) =>
        let lat' := lat + zigzagDecode r1
        let lng' := lng + zigzagDecode r2
        (decodeAux fuel lat' lng' rest2).map
          (fun pts => ((lng' : ℚ) / 100000, (lat' : ℚ) / 100000) :: pts)

/-- `decode_polyline` from the source. -/
def decode_polyline (s : List Char) : Option (List (ℚ × ℚ)) :=
  decodeAux s.length 0 0 s

/-! ### Specification-side decoder (from the words of the spec)

The spec describes the decoder as: accumulate 5-bit groups (code point minus
63, continuation flagged by *bit `0x20`*) into varints, zig-zag decode (odd →
bitwise complement of the right shift, even → plain right shift), pair the
deltas up (latitude then longitude), prefix-sum and scale by `1/100000`,
emitting `(longitude, latitude)` pairs. -/

/-- Spec-side varint accumulation; continuation is the `0x20` *bit* of the
value `ord(c) - 63`, i.e. `byte mod 64 ≥ 32` in two's complement. -/
def parseVarintSpecAux (shift result : Nat) : List Char → Option (Nat × List Char)
  | [] => none
  | c :: rest =>
    let byte : Int := (c.toNat : Int) - 63
    let result' := result ||| ((byte % 32).toNat <<< shift)
    if 32 ≤ byte % 64 then parseVarintSpecAux (shift + 5) result' rest
    else some (result', rest)

/-- Spec-side varint. -/
def parseVarintSpec (s : List Char) : Option (Nat × List Char) :=
  parseVarintSpecAux 0 0 s

/-- Spec-side zig-zag: odd accumulated value gives the bitwise complement of
the right shift, even gives the plain right shift. -/
def zigzagSpecDecode (r : Nat) : Int :=
  if r % 2 = 1 then -((r / 2 : Nat) : Int) - 1 else ((r / 2 : Nat) : Int)

/-- All varints of the string, left to right. -/
def tokenizeSpec : Nat → List Char → Option (List Nat)
  | _, [] => some []
  | 0, _ :: _ => none
  | fuel + 1, c :: cs =>
    match parseVarintSpec (c :: cs) with
    | none => none
    | some (r, rest) => (tokenizeSpec fuel rest).map (fun ts => r :: ts)

/-- Interleaved deltas: latitude then longitude per point; an odd number of
deltas means the string ended mid-point. -/
def pairUpSpec : List Int → Option (List (Int × Int))
  | [] => some []
  | [_] => none
  | a :: b :: rest => (pairUpSpec rest).map (fun ps => (a, b) :: ps)

/-- Prefix-sum the deltas from a running coordinate, scale by `1/100000`, and
emit `(longitude, latitude)` pairs in encoding order. -/
def scanPointsSpec (lat lng : Int) : List (Int × Int) → List (ℚ × ℚ)
  | [] => []
  | (dlat, dlng) :: rest =>
    let lat' := lat + dlat
    let lng' := lng + dlng
    ((lng' : ℚ) / 100000, (lat' : ℚ) / 100000) :: scanPointsSpec lat' lng' rest

/-- The decoder as the spec words it. -/
def decodePolylineSpec (s : List Char) : Option (List (ℚ × ℚ)) :=
  (tokenizeSpec s.length s).bind
    (fun ts => (pairUpSpec (ts.map zigzagSpecDecode)).map (scanPointsSpec 0 0))

/-! ## Weather aggregation (`get_weather_forecast`) -/

/-- One `item['weather'][0]` record of the OpenWeather response shape:
`id`, `main`, `description`, `icon`.  The source appends the whole dict to
`daily_forecasts[day]['weather']` and `max(..., key=list.count)` compares
whole dicts, so every field takes part in equality — two records with the
same condition label and icon but different descriptions are distinct. -/
structure WRec where
  id : Int
  main : String
  description : String
  icon : String
deriving DecidableEq

/-- One 3-hour forecast entry: `dt_txt`, `main.temp`, `weather[0]`. -/
structure WItem where
  dt_txt : String
  temp : ℚ
  w : WRec
deriving DecidableEq

/-- `item['dt_txt'].split(' ')[0]`: the characters before the first space. -/
def dateOf (it : WItem) : String :=
  String.mk (it.dt_txt.toList.takeWhile (fun c => c ≠ ' '))

/-- One step of building the `daily_forecasts` dict: append to the entry of
an existing date, otherwise add a new date at the end (Python dicts preserve
insertion order). -/
def addItem : List (String × List ℚ × List WRec) → WItem → List (String × List ℚ × List WRec)
  | [], it => [(dateOf it, [it.temp], [it.w])]
  | (d, ts, ws) :: rest, it =>
    if dateOf it = d then (d, ts ++ [it.temp], ws ++ [it.w]) :: rest
    else (d, ts, ws) :: addItem rest it

/-- The `daily_forecasts` dict of the source, as an insertion-ordered
association list. -/
def daily_forecasts (items : List WItem) : List (String × List ℚ × List WRec) :=
  items.foldl addItem []

/-- `max(lst, key=lst.count)`: first element of the group attaining the
maximal multiplicity.  Python's `max` raises on an empty list; group lists
are nonempty by construction, so the default is unreachable. -/
def pyMaxCount (ws : List WRec) : WRec :=
  match ws with
  | [] => ⟨0, "", "", ""⟩
  | w :: rest => pyMaxGo (fun x => ws.count x) w rest

/-- `round(q, 1)` in Python: round half to even at one decimal.  Floats are
modelled as exact rationals, so binary-representation artefacts of CPython's
`round` are idealised away. -/
def rhe (q : ℚ) : ℤ :=
  let f := q - ⌊q⌋
  if f < 1/2 then ⌊q⌋
  else if 1/2 < f then ⌊q⌋ + 1
  else if ⌊q⌋ % 2 = 0 then ⌊q⌋ else ⌊q⌋ + 1

/-- `round(q, 1)`. -/
def round1 (q : ℚ) : ℚ := (rhe (10 * q) : ℚ) / 10

/-- `http://openweathermap.org/img/wn/{icon}@2x.png`. -/
def iconUrl (icon : String) : String :=
  "http://openweathermap.org/img/wn/" ++ icon ++ "@2x.png"

/-- One record of `processed_forecast`. -/
structure ForecastDay where
  date : String
  avg_temp : ℚ
  condition : String
  icon : String
deriving DecidableEq

/-- The body of the `for day, data in daily_forecasts.items()` loop. -/
def processGroup (g : String × List ℚ × List WRec) : ForecastDay :=
  let avg := g.2.1.sum / (g.2.1.length : ℚ)
  let mw := pyMaxCount g.2.2
  ⟨g.1, round1 avg, mw.main, iconUrl mw.icon⟩

/-- `get_weather_forecast`, with the HTTP call's outcome as input
(`Except.error` is a transport error, caught and turned into `None`;
`Except.ok` carries `weather_data['list']` in the known response shape).
The result is truncated with `[:duration]`. -/
def get_weather_forecast (resp : Except Unit (List WItem)) (duration : Nat) :
    Option (List ForecastDay) :=
  match resp with
  | .error _ => none
  | .ok weather_data =>
    some (((daily_forecasts weather_data).map processGroup).take duration)

/-! ## Place details client (`get_place_details`) -/

/-- `place_data.get('rating', 'N/A')`: a number or the literal `'N/A'`. -/
inductive Rating where
  | val (q : ℚ)
  | NA
deriving DecidableEq

/-- The consumed fields of the details response `['result']`; absent keys are
`none`.  `geometry.location` carries `lat` and `lng` together in the known
Places response shape. -/
structure PlaceData where
  name : Option String
  rating : Option ℚ
  formatted_address : Option String
  location : Option (ℚ × ℚ)
  website : Option String
  url : Option String
  photos : Option (List String)
deriving DecidableEq

/-- The `details` dict built by `get_place_details`. -/
structure PlaceDetails where
  name : Option String
  rating : Rating
  address : Option String
  lat : Option ℚ
  lon : Option ℚ
  website : Option String
  map_url : Option String
  photos : List String
deriving DecidableEq

/-- The photo URL built for one photo reference. -/
def photoUrl (apiKey ref : String) : String :=
  "https://maps.googleapis.com/maps/api/place/photo?maxwidth=400&photoreference="
    ++ ref ++ "&key=" ++ apiKey

/-- The placeholder photo URL: `place_name.replace(' ', '+')` interpolated. -/
def placeholderPhoto (place_name : String) : String :=
  "https://placehold.co/400x300/E0E0E0/000000?text="
    ++ String.mk (pyReplace [' '] ['+'] place_name.toList)

/-- `get_place_details`.  The two HTTP calls are inputs: `search` is the
text-search outcome (transport error, or the `place_id`s of `results`), and
`detailsReq` maps a `place_id` to the details-call outcome.  A transport
error anywhere in the `try` block returns `None`; so does an empty search
result list. -/
def get_place_details (apiKey place_name : String)
    (search : Except Unit (List String))
    (detailsReq : String → Except Unit PlaceData) : Option PlaceDetails :=
  match search with
  | .error _ => none
  | .ok results =>
    match results with
    | [] => none
    | place_id :: _ =>
      match detailsReq place_id with
      | .error _ => none
      | .ok place_data =>
        let photos0 :=
          match place_data.photos with
          | none => []
          | some ps => (ps.take 3).map (photoUrl apiKey)
        let photos := if photos0 = [] then [placeholderPhoto place_name] else photos0
        some
          { name := place_data.name
            rating := match place_data.rating with
                      | some q => Rating.val q
                      | none => Rating.NA
            address := place_data.formatted_address
            lat := place_data.location.map (fun l => l.1)
            lon := place_data.location.map (fun l => l.2)
            website := place_data.website
            map_url := place_data.url
            photos := photos }

/-! ## Directions client (`get_directions_and_route`) -/

/-- `legs[0]` of a route (a route of the known Directions shape always has at
least one leg). -/
structure LegData where
  duration_text : String
deriving DecidableEq

/-- One entry of `data['routes']`. -/
structure RouteData where
  leg0 : LegData
  overview_polyline : List Char
deriving DecidableEq

/-- The Directions response body. -/
structure DirectionsData where
  status : String
  routes : List RouteData
deriving DecidableEq

/-- `get_directions_and_route`: on transport error, non-`OK` status or no
routes it returns `(None, "N/A")`; otherwise the decoded overview polyline
and `legs[0].duration.text`.  (`decode_polyline` returns `none` only where
the source would raise on a malformed polyline; provider polylines are
well formed.) -/
def get_directions_and_route (resp : Except Unit DirectionsData) :
    Option (List (ℚ × ℚ)) × String :=
  match resp with
  | .error _ => (none, "N/A")
  | .ok data =>
    match data.routes with
    | [] => (none, "N/A")
    | r :: _ =>
      if data.status = "OK" then
        (decode_polyline r.overview_polyline, r.leg0.duration_text)
      else (none, "N/A")

/-! ## Geocoding client (`get_destination_coords`) -/

/-- `results[0]['geometry']['location']` of the known Geocoding shape. -/
structure GeoLoc where
  lat : ℚ
  lng : ℚ
deriving DecidableEq

/-- Outcome of the geocoding HTTP call. -/
inductive GeoOutcome where
  | reqError
  | response (status : String) (results : List GeoLoc)

/-- A Python return value of `get_destination_coords`: either the bare
`None` (the function falls off its end) or a pair. -/
inductive PyGeoReturn where
  | pyNone
  | pair (lat lng : Option ℚ)
deriving DecidableEq

/-- `get_destination_coords`.  The `except` branch returns `None, None`; on
`status == 'OK'` it returns `(lat, lng)` of the first result (an empty result
list with an `OK` status would raise an uncaught `IndexError`, modelled as
`none`); any other status falls off the end of the function, which in Python
returns the bare `None`. -/
def get_destination_coords : GeoOutcome → Option PyGeoReturn
  | .reqError => some (.pair none none)
  | .response status results =>
    if status = "OK" then
      match results with
      | [] => none
      | l :: _ => some (.pair (some l.lat) (some l.lng))
    else some .pyNone

/-! ## Itinerary generator (`generate_itinerary_with_gemini`) -/

/-- `response.text.strip().replace("```json", "").replace("```", "")`. -/
def cleanResponse (t : List Char) : List Char :=
  pyReplace "```".toList [] (pyReplace "```json".toList [] (pyStrip t))

/-- `generate_itinerary_with_gemini`.  The model call is an input
(`Except.error` for an exception raised by the API, caught by the `except`
block which returns `None`); `parseJson` models `json.loads`, with `none` for
`json.JSONDecodeError`, also caught and turned into `None`.  The `st.error`
report is presentation. -/
def generate_itinerary_with_gemini {α : Type}
    (parseJson : List Char → Option α)
    (modelResponse : Except Unit (List Char)) : Option α :=
  match modelResponse with
  | .error _ => none
  | .ok text => parseJson (cleanResponse text)

/-- A model reply wrapped in markdown code-fence decoration. -/
def fenceWrap (s : List Char) : List Char :=
  "```json".toList ++ s ++ "```".toList

/-! ## Enrichment orchestrator (the sidebar loop, lines 309–335) -/

/-- One activity of the generated itinerary (the fields the loop touches). -/
structure Activity where
  time_of_day : String
  poi_name : String
  description : String
deriving DecidableEq

/-- One day of the generated itinerary. -/
structure Day where
  day : Int
  theme : String
  activities : List Activity
deriving DecidableEq

/-- An activity after the enrichment pass: `activity['details']` is set for
every activity, and `activity['travel_from_previous']` only where the route
loop assigns it. -/
structure EnrichedActivity where
  activity : Activity
  details : Option PlaceDetails
  travel_from_previous : Option String
deriving DecidableEq

/-- A `point` dict of `day_points`: `details['lat']` was checked truthy, the
other fields are copied unchecked. -/
structure MapPoint where
  lat : ℚ
  lon : Option ℚ
  name : Option String
  day : Int
deriving DecidableEq, Inhabited

/-- A day after enrichment. -/
structure EnrichedDay where
  day : Int
  theme : String
  activities : List EnrichedActivity
deriving DecidableEq

/-- The first inner loop: attach `get_place_details` to every activity.  The
place client is an input: it is `get_place_details` composed with the HTTP
layer. -/
def initEnrich (place : String → Option PlaceDetails) (d : Day) : List EnrichedActivity :=
  d.activities.map (fun a => ⟨a, place a.poi_name, none⟩)

/-- `day_points`: the coordinates of the resolved activities in visit order.
The guard is Python truthiness, `if details and details.get('lat'):` — a
latitude of exactly `0.0` is falsy and is skipped. -/
def dayPoints (d : Day) (es : List EnrichedActivity) : List MapPoint :=
  es.filterMap (fun e =>
    match e.details with
    | none => none
    | some det =>
      match det.lat with
      | none => none
      | some v => if v = 0 then none else some ⟨v, det.lon, det.name, d.day⟩)

/-- `f"~ {duration} by transit"`. -/
def travelText (duration : String) : String := "~ " ++ duration ++ " by transit"

/-- Set the `travel_from_previous` key. -/
def setTravel (t : String) (e : EnrichedActivity) : EnrichedActivity :=
  { e with travel_from_previous := some t }

/-- The `for i in range(len(day_points) - 1)` loop: route between consecutive
day points, and assign the duration text to `day['activities'][i+1]` — the
index into the *activities* list, not into `day_points`.  The route client is
an input: it is `get_directions_and_route` composed with the HTTP layer (the
map layers built from the path are presentation). -/
def annotateTravel (route : MapPoint → MapPoint → Option (List (ℚ × ℚ)) × String)
    (pts : List MapPoint) (es : List EnrichedActivity) : List EnrichedActivity :=
  (List.range (pts.length - 1)).foldl
    (fun acc i =>
      updateAt (i + 1)
        (setTravel (travelText (route (pts.getD i default) (pts.getD (i + 1) default)).2))
        acc)
    es

/-- The per-day enrichment body. -/
def enrichDay (place : String → Option PlaceDetails)
    (route : MapPoint → MapPoint → Option (List (ℚ × ℚ)) × String)
    (d : Day) : List EnrichedActivity :=
  let es := initEnrich place d
  annotateTravel route (dayPoints d es) es

/-- The whole enrichment sweep over the itinerary days. -/
def enrichItinerary (place : String → Option PlaceDetails)
    (route : MapPoint → MapPoint → Option (List (ℚ × ℚ)) × String)
    (days : List Day) : List EnrichedDay :=
  days.map (fun d => ⟨d.day, d.theme, enrichDay place route d⟩)

/-- Spec-side view used to state the aggregation property: the weather
records of one calendar date, in input order. -/
def dateGroup (items : List WItem) (d : String) : List WRec :=
  (items.filter (fun it => dateOf it == d)).map (fun it => it.w)

/-! ## Concrete fixtures for the two-day scenario of the spec's test
(used by the C8 witness): a 2-day, 3-activities-per-day itinerary and a
place client that fails exactly for the activity named `"X"`. -/

/-- Place client failing exactly for `"X"`. -/
def placeFixC8 : String → Option PlaceDetails := fun s =>
  if s = "X" then none
  else some ⟨some s, Rating.NA, none, some 1, some 1, none, none, []⟩

/-- Route client whose lookups all fail. -/
def routeFixC8 : MapPoint → MapPoint → Option (List (ℚ × ℚ)) × String :=
  fun _ _ => (none, "N/A")

/-- Two days of three activities each. -/
def daysFixC8 : List Day :=
  [⟨1, "a", [⟨"Morning", "P0", "x"⟩, ⟨"Afternoon", "X", "x"⟩, ⟨"Evening", "P2", "x"⟩]⟩,
   ⟨2, "b", [⟨"Morning", "P3", "x"⟩, ⟨"Afternoon", "P4", "x"⟩, ⟨"Evening", "P5", "x"⟩]⟩]

/-! ## Lemmas: polyline decoder -/

theorem parseVarintSpecAux_length (s : List Char) :
    ∀ (shift result r : Nat) (t : List Char),
      parseVarintSpecAux shift result s = some (r, t) → t.length < s.length := by
  induction s with
  | nil => intro shift result r t h; simp [parseVarintSpecAux] at h
  | cons c rest ih =>
    intro shift result r t h
    simp only [parseVarintSpecAux] at h
    split at h
    · exact Nat.lt_trans (ih _ _ _ _ h) (by simp)
    · cases h; simp

theorem parseVarintSpecAux_mem (s : List Char) :
    ∀ (shift result r : Nat) (t : List Char),
      parseVarintSpecAux shift result s = some (r, t) → ∀ x ∈ t, x ∈ s := by
  induction s with
  | nil => intro shift result r t h; simp [parseVarintSpecAux] at h
  | cons c rest ih =>
    intro shift result r t h
    simp only [parseVarintSpecAux] at h
    split at h
    · exact fun x hx => List.mem_cons_of_mem _ (ih _ _ _ _ h x hx)
    · cases h; exact fun x hx => List.mem_cons_of_mem _ hx

theorem parseVarintAux_eq_spec (s : List Char)
    (h : ∀ c ∈ s, 63 ≤ c.toNat ∧ c.toNat ≤ 126) :
    ∀ shift result, parseVarintAux shift result s = parseVarintSpecAux shift result s := by
  induction s with
  | nil => intro shift result; rfl
  | cons c rest ih =>
    intro shift result
    have hc := h c (List.mem_cons_self c rest)
    have hrest : ∀ x ∈ rest, 63 ≤ x.toNat ∧ x.toNat ≤ 126 :=
      fun x hx => h x (List.mem_cons_of_mem _ hx)
    simp only [parseVarintAux, parseVarintSpecAux]
    have hb : ((c.toNat : Int) - 63) % 64 = (c.toNat : Int) - 63 :=
      Int.emod_eq_of_lt (by omega) (by omega)
    rw [hb]
    split
    · exact ih hrest _ _
    · rfl

theorem parseVarint_eq_spec (s : List Char)
    (h : ∀ c ∈ s, 63 ≤ c.toNat ∧ c.toNat ≤ 126) :
    parseVarint s = parseVarintSpec s :=
  parseVarintAux_eq_spec s h 0 0

theorem zigzag_eq (r : Nat) : zigzagDecode r = zigzagSpecDecode r := by
  by_cases h : r % 2 = 1
  · simp [zigzagDecode, zigzagSpecDecode, Nat.and_one_is_mod, Nat.shiftRight_one, h]
  · have h0 : r % 2 = 0 := by omega
    simp [zigzagDecode, zigzagSpecDecode, Nat.and_one_is_mod, Nat.shiftRight_one, h, h0]

theorem tokenizeSpec_nil (n : Nat) : tokenizeSpec n [] = some [] := by
  cases n <;> rfl

theorem tokenizeSpec_succ_of_ne (fuel : Nat) (s : List Char) (hs : s ≠ []) :
    tokenizeSpec (fuel + 1) s =
      match parseVarintSpec s with
      | none => none
      | some (r, rest) => (tokenizeSpec fuel rest).map (fun ts => r :: ts) := by
  match s, hs with
  | c :: cs, _ => rfl

theorem tokenizeSpec_congr : ∀ (a : Nat) (s : List Char) (b : Nat),
    s.length ≤ a → s.length ≤ b → tokenizeSpec a s = tokenizeSpec b s := by
  intro a
  induction a with
  | zero =>
    intro s b ha hb
    have hs : s = [] := List.eq_nil_of_length_eq_zero (Nat.le_zero.mp ha)
    subst hs
    simp [tokenizeSpec_nil]
  | succ a ih =>
    intro s b ha hb
    match s with
    | [] => simp [tokenizeSpec_nil]
    | c :: cs =>
      match b with
      | 0 => simp at hb
      | b + 1 =>
        cases hp : parseVarintSpec (c :: cs) with
        | none => simp [tokenizeSpec, hp]
        | some rt =>
          obtain ⟨r, rest⟩ := rt
          have hl : rest.length < (c :: cs).length :=
            parseVarintSpecAux_length _ _ _ _ _ hp
          simp only [tokenizeSpec, hp]
          simp only [List.length_cons] at ha hb hl
          rw [ih rest b (by omega) (by omega)]

theorem decodeAux_eq_spec : ∀ (n : Nat) (lat lng : Int) (s : List Char),
    s.length ≤ n → (∀ c ∈ s, 63 ≤ c.toNat ∧ c.toNat ≤ 126) →
    decodeAux n lat lng s =
      (tokenizeSpec n s).bind
        (fun ts => (pairUpSpec (ts.map zigzagSpecDecode)).map (scanPointsSpec lat lng)) := by
  intro n
  induction n with
  | zero =>
    intro lat lng s hlen _
    have hs : s = [] := List.eq_nil_of_length_eq_zero (Nat.le_zero.mp hlen)
    subst hs
    simp [decodeAux, tokenizeSpec_nil, pairUpSpec, scanPointsSpec]
  | succ n ih =>
    intro lat lng s hlen h
    match s with
    | [] => simp [decodeAux, tokenizeSpec_nil, pairUpSpec, scanPointsSpec]
    | c :: cs =>
      have hpv : parseVarint (c :: cs) = parseVarintSpec (c :: cs) :=
        parseVarint_eq_spec _ h
      cases hp1 : parseVarintSpec (c :: cs) with
      | none => simp [decodeAux, tokenizeSpec, hpv, hp1]
      | some rt1 =>
        obtain ⟨r1, rest1⟩ := rt1
        have hmem1 : ∀ x ∈ rest1, 63 ≤ x.toNat ∧ x.toNat ≤ 126 :=
          fun x hx => h x (parseVarintSpecAux_mem _ _ _ _ _ hp1 x hx)
        have hlen1 : rest1.length < (c :: cs).length :=
          parseVarintSpecAux_length _ _ _ _ _ hp1
        have hpv2 : parseVarint rest1 = parseVarintSpec rest1 :=
          parseVarint_eq_spec _ hmem1
        cases hp2 : parseVarintSpec rest1 with
        | none =>
          match rest1, hp2 with
          | [], hp2 =>
            simp [decodeAux, tokenizeSpec, hpv, hp1, hpv2, hp2, tokenizeSpec_nil,
              pairUpSpec]
          | d :: ds, hp2 =>
            obtain ⟨m, rfl⟩ : ∃ m, n = m + 1 := by
              refine ⟨n - 1, ?_⟩
              simp only [List.length_cons] at hlen hlen1
              omega
            simp [decodeAux, tokenizeSpec, hpv, hp1, hpv2, hp2,
              tokenizeSpec_succ_of_ne]
        | some rt2 =>
          obtain ⟨r2, rest2⟩ := rt2
          have hr1ne : rest1 ≠ [] := by
            intro he
            rw [he] at hp2
            simp [parseVarintSpec, parseVarintSpecAux] at hp2
          have hlen2 : rest2.length < rest1.length :=
            parseVarintSpecAux_length _ _ _ _ _ hp2
          have hmem2 : ∀ x ∈ rest2, 63 ≤ x.toNat ∧ x.toNat ≤ 126 :=
            fun x hx => hmem1 x (parseVarintSpecAux_mem _ _ _ _ _ hp2 x hx)
          have h1pos : 1 ≤ rest1.length := List.length_pos.mpr hr1ne
          obtain ⟨m, rfl⟩ : ∃ m, n = m + 1 := by
            refine ⟨n - 1, ?_⟩
            simp only [List.length_cons] at hlen hlen1
            omega
          have hrec := ih (lat + zigzagSpecDecode r1) (lng + zigzagSpecDecode r2) rest2
            (by simp only [List.length_cons] at hlen hlen1; omega) hmem2
          have htok : tokenizeSpec m rest2 = tokenizeSpec (m + 1) rest2 :=
            tokenizeSpec_congr m rest2 (m + 1)
              (by simp only [List.length_cons] at hlen hlen1; omega)
              (by simp only [List.length_cons] at hlen hlen1; omega)
          simp only [decodeAux, hpv, hp1, hpv2, hp2, zigzag_eq, hrec,
            tokenizeSpec_succ_of_ne (m + 1) (c :: cs) (by simp), hp1,
            tokenizeSpec_succ_of_ne m rest1 hr1ne, hp2, htok]
          cases tokenizeSpec (m + 1) rest2 with
          | none => simp
          | some ts =>
            simp only [Option.map_some', Option.some_bind, List.map_cons, pairUpSpec]
            cases pairUpSpec (ts.map zigzagSpecDecode) with
            | none => simp
            | some ps => simp [scanPointsSpec]

/-- C3 (amended: restricted to strings over the encoded-polyline alphabet,
code points 63–126): `decode_polyline` processes the string left to right,
for each point accumulating 5-bit groups (code point minus 63, continuation
flagged by bit `0x20`) into a variable-length integer for the latitude delta
then the longitude delta, applying zig-zag decoding (odd accumulated value
gives the bitwise complement of the right shift, even the plain right
shift), scaling by `1/100000`, adding to a running absolute coordinate and
emitting `(longitude, latitude)` pairs in encoding order — i.e. it agrees
with the spec-side pipeline `decodePolylineSpec`; and decoding the empty
string yields the empty sequence. -/
theorem c3_decoder_matches_spec (s : List Char)
    (h : ∀ c ∈ s, 63 ≤ c.toNat ∧ c.toNat ≤ 126) :
    decode_polyline s = decodePolylineSpec s ∧ decode_polyline [] = some [] := by
  refine ⟨?_, rfl⟩
  rw [decode_polyline, decodePolylineSpec]
  exact decodeAux_eq_spec s.length 0 0 s le_rfl h

theorem c3_decoder_matches_spec_witness :
    (∀ c ∈ ("_p~iF~ps|U").toList, 63 ≤ c.toNat ∧ c.toNat ≤ 126) ∧
      decode_polyline ("_p~iF~ps|U").toList = decodePolylineSpec ("_p~iF~ps|U").toList :=
  ⟨by decide, (c3_decoder_matches_spec ("_p~iF~ps|U").toList (by decide)).1⟩

/-- C3 counterexample: on the two-character string `[chr 127, chr 63]`
(outside the polyline alphabet) the source decoder and the claim's
description disagree: `chr 127` gives `byte = 64`, whose `0x20` bit is
clear — so the claim's accumulation stops and yields the point `(0, 0)` —
while the source's `byte >= 0x20` test continues and then runs off the end
of the string.  The claim, stated for *every* input string, is false. -/
theorem c3_decoder_vs_spec_counterexample :
    decode_polyline ['\x7f', '?'] = none ∧
      decodePolylineSpec ['\x7f', '?'] = some [(0, 0)] := by
  constructor
  · decide
  · have htok : tokenizeSpec (['\x7f', '?'] : List Char).length ['\x7f', '?']
        = some [0, 0] := by decide
    rw [decodePolylineSpec, htok]
    norm_num [pairUpSpec, scanPointsSpec, zigzagSpecDecode]

/-! ## Lemmas: `strip`/`replace` and the generator (C6) -/

theorem pyReplaceF_nil (n : Nat) (pat rep : List Char) :
    pyReplaceF n pat rep [] = [] := by
  cases n with
  | zero => rfl
  | succ n =>
    simp only [pyReplaceF]
    rw [if_neg]
    rintro ⟨hne, hpre⟩
    exact hne (List.prefix_nil.mp (List.isPrefixOf_iff_prefix.mp hpre))

theorem pyReplaceF_congr : ∀ (a : Nat) (pat rep s : List Char) (b : Nat),
    s.length ≤ a → s.length ≤ b → pyReplaceF a pat rep s = pyReplaceF b pat rep s := by
  intro a
  induction a with
  | zero =>
    intro pat rep s b ha _
    have hs : s = [] := List.eq_nil_of_length_eq_zero (Nat.le_zero.mp ha)
    subst hs
    simp [pyReplaceF_nil]
  | succ a ih =>
    intro pat rep s b ha hb
    match s with
    | [] => simp [pyReplaceF_nil]
    | c :: cs =>
      match b with
      | 0 => simp at hb
      | b + 1 =>
        simp only [pyReplaceF]
        by_cases hc : pat ≠ [] ∧ pat.isPrefixOf (c :: cs)
        · rw [if_pos hc, if_pos hc]
          have hp : pat.length ≤ (c :: cs).length :=
            (List.isPrefixOf_iff_prefix.mp hc.2).length_le
          have hplen : 1 ≤ pat.length := by
            cases pat with
            | nil => exact absurd rfl hc.1
            | cons p ps => simp
          rw [ih pat rep ((c :: cs).drop pat.length) b
            (by simp only [List.length_drop, List.length_cons] at *; omega)
            (by simp only [List.length_drop, List.length_cons] at *; omega)]
        · rw [if_neg hc, if_neg hc]
          simp only [List.length_cons] at ha hb
          rw [ih pat rep cs b (by omega) (by omega)]

theorem pyReplace_head_match (pat rest : List Char) (hne : pat ≠ []) :
    pyReplace pat [] (pat ++ rest) = pyReplace pat [] rest := by
  obtain ⟨f, hf⟩ : ∃ f, (pat ++ rest).length = f + 1 := by
    cases pat with
    | nil => exact absurd rfl hne
    | cons p ps => exact ⟨(ps ++ rest).length, by simp⟩
  rw [pyReplace, hf]
  simp only [pyReplaceF]
  rw [if_pos ⟨hne, List.isPrefixOf_iff_prefix.mpr (List.prefix_append pat rest)⟩]
  rw [List.drop_left]
  simp only [List.nil_append]
  have hplen : 1 ≤ pat.length := by
    cases pat with
    | nil => exact absurd rfl hne
    | cons p ps => simp
  exact pyReplaceF_congr f pat [] rest rest.length
    (by simp only [List.length_append] at hf; omega) le_rfl

theorem pyReplace_clean_append (p' s t : List Char)
    (hs : ∀ c ∈ s, c ≠ backtickChar) :
    pyReplace (backtickChar :: p') [] (s ++ t) = s ++ pyReplace (backtickChar :: p') [] t := by
  induction s with
  | nil => simp
  | cons c s' ih =>
    have hcnot : (backtickChar == c) = false := by
      rw [beq_eq_false_iff_ne]
      exact fun h => (hs c (List.mem_cons_self c s')) h.symm
    have hnp : ((backtickChar :: p').isPrefixOf (c :: (s' ++ t))) = false := by
      rw [List.isPrefixOf_cons₂]
      simp [hcnot]
    rw [pyReplace]
    simp only [List.cons_append, List.length_cons]
    simp only [pyReplaceF]
    rw [if_neg (by simp [hnp])]
    have : pyReplaceF (s' ++ t).length (backtickChar :: p') [] (s' ++ t)
        = pyReplace (backtickChar :: p') [] (s' ++ t) := rfl
    rw [this, ih (fun x hx => hs x (List.mem_cons_of_mem _ hx))]

theorem pyStrip_eq_self (s : List Char)
    (h1 : ∀ c, s.head? = some c → c.isWhitespace = false)
    (h2 : ∀ c, s.getLast? = some c → c.isWhitespace = false) :
    pyStrip s = s := by
  match s with
  | [] => rfl
  | c :: cs =>
    have hhead : List.dropWhile Char.isWhitespace (c :: cs) = c :: cs :=
      List.dropWhile_cons_of_neg (by simp [h1 c rfl])
    have htail : List.dropWhile Char.isWhitespace ((c :: cs).reverse) = (c :: cs).reverse := by
      cases hr : (c :: cs).reverse with
      | nil => rfl
      | cons d ds =>
        have hd : d.isWhitespace = false := by
          apply h2
          rw [List.getLast?_eq_head?_reverse, hr]
          rfl
        exact List.dropWhile_cons_of_neg (by simp [hd])
    rw [pyStrip, hhead, htail, List.reverse_reverse]

theorem cleanResponse_fenceWrap (s : List Char) (h : backtickChar ∉ s) :
    cleanResponse (fenceWrap s) = s := by
  have hs : ∀ c ∈ s, c ≠ backtickChar := fun c hc he => h (he ▸ hc)
  have h7 : ("```json".toList : List Char) = backtickChar :: "``json".toList := by decide
  have h3 : ("```".toList : List Char) = backtickChar :: "``".toList := by decide
  have h3c : ("```".toList : List Char) = "``".toList ++ [backtickChar] := by decide
  have hstrip : pyStrip (fenceWrap s) = fenceWrap s := by
    apply pyStrip_eq_self
    · intro c hc
      rw [fenceWrap, h7] at hc
      simp only [List.cons_append, List.head?_cons, Option.some.injEq] at hc
      rw [← hc]
      decide
    · intro c hc
      have hsplit : fenceWrap s = ("```json".toList ++ s ++ "``".toList) ++ [backtickChar] := by
        rw [fenceWrap, h3c]
        simp [List.append_assoc]
      rw [hsplit, List.getLast?_concat] at hc
      simp only [Option.some.injEq] at hc
      rw [← hc]
      decide
  have hstep1 : pyReplace "```json".toList [] (fenceWrap s) = s ++ "```".toList := by
    rw [fenceWrap, List.append_assoc, pyReplace_head_match _ _ (by decide)]
    rw [h7, pyReplace_clean_append _ _ _ hs, ← h7]
    have : pyReplace "```json".toList [] ("```".toList) = "```".toList := by decide
    rw [this]
  have hstep2 : pyReplace "```".toList [] (s ++ "```".toList) = s := by
    rw [h3, pyReplace_clean_append _ _ _ hs, ← h3]
    have : pyReplace "```".toList [] ("```".toList) = [] := by decide
    rw [this, List.append_nil]
  rw [cleanResponse, hstrip, hstep1, hstep2]

/-- C6: the Itinerary Generator strips the markdown code-fence decoration
before parsing the remainder as JSON — a fenced model reply parses exactly as
its unfenced payload — and whenever the cleaned response is not valid JSON
(the parse yields nothing) the generator returns no itinerary at all. -/
theorem c6_fence_strip_and_parse {α : Type} (parseJson : List Char → Option α)
    (s : List Char) (h : backtickChar ∉ s) :
    generate_itinerary_with_gemini parseJson (.ok (fenceWrap s)) = parseJson s
      ∧ ∀ t : List Char, parseJson (cleanResponse t) = none →
          generate_itinerary_with_gemini parseJson (.ok t) = none := by
  constructor
  · show parseJson (cleanResponse (fenceWrap s)) = parseJson s
    rw [cleanResponse_fenceWrap s h]
  · intro t ht
    exact ht

theorem c6_fence_strip_and_parse_witness :
    generate_itinerary_with_gemini
        (fun t => if t = "null".toList then some 0 else none)
        (.ok (fenceWrap "null".toList)) = some 0
      ∧ generate_itinerary_with_gemini
          (fun t => if t = "null".toList then some 0 else none)
          (.ok "oops".toList) = none := by
  constructor
  · rw [(c6_fence_strip_and_parse
      (fun t => if t = "null".toList then some 0 else (none : Option Nat))
      "null".toList (by decide)).1]
    decide
  · exact (c6_fence_strip_and_parse
      (fun t => if t = "null".toList then some 0 else (none : Option Nat))
      "null".toList (by decide)).2 "oops".toList (by decide)

/-! ## Lemmas: enrichment orchestrator -/

theorem updateAt_getElem {α : Type} (i j : Nat) (f : α → α) (l : List α) :
    (updateAt i f l)[j]? = if j = i then l[j]?.map f else l[j]? := by
  induction l generalizing i j with
  | nil => simp [updateAt]
  | cons x xs ih =>
    cases i with
    | zero =>
      cases j with
      | zero => simp [updateAt]
      | succ k => simp [updateAt]
    | succ m =>
      cases j with
      | zero => simp [updateAt]
      | succ k => simp [updateAt, ih]

theorem foldlAnnotate_getElem (g : Nat → String) :
    ∀ (n : Nat) (es : List EnrichedActivity) (m : Nat),
      ((List.range n).foldl (fun acc i => updateAt (i + 1) (setTravel (g i)) acc) es)[m]?
        = if 1 ≤ m ∧ m ≤ n then es[m]?.map (setTravel (g (m - 1))) else es[m]? := by
  intro n
  induction n with
  | zero =>
    intro es m
    simp only [List.range_zero, List.foldl_nil]
    rw [if_neg (by omega)]
  | succ n ih =>
    intro es m
    rw [List.range_succ, List.foldl_append, List.foldl_cons, List.foldl_nil]
    rw [updateAt_getElem]
    by_cases hm : m = n + 1
    · subst hm
      rw [if_pos rfl, ih, if_neg (by omega), if_pos (by omega)]
      simp
    · rw [if_neg hm, ih]
      by_cases h2 : 1 ≤ m ∧ m ≤ n
      · rw [if_pos h2, if_pos (by omega)]
      · rw [if_neg h2, if_neg (by omega)]

theorem annotateTravel_getElem
    (route : MapPoint → MapPoint → Option (List (ℚ × ℚ)) × String)
    (pts : List MapPoint) (es : List EnrichedActivity) (m : Nat) :
    (annotateTravel route pts es)[m]?
      = if 1 ≤ m ∧ m ≤ pts.length - 1 then
          es[m]?.map (setTravel (travelText
            (route (pts.getD (m - 1) default) (pts.getD m default)).2))
        else es[m]? := by
  have h := foldlAnnotate_getElem
    (fun i => travelText (route (pts.getD i default) (pts.getD (i + 1) default)).2)
    (pts.length - 1) es m
  by_cases hc : 1 ≤ m ∧ m ≤ pts.length - 1
  · rw [annotateTravel, h, if_pos hc, if_pos hc,
      show m - 1 + 1 = m from by omega]
  · rw [annotateTravel, h, if_neg hc, if_neg hc]

/-- C7: in every itinerary produced by the Enrichment Orchestrator, the
first activity of every day never carries a "travel from previous"
value: the travel loop only assigns at activity indices `i + 1 ≥ 1`. -/
theorem c7_first_activity_never_travel
    (place : String → Option PlaceDetails)
    (route : MapPoint → MapPoint → Option (List (ℚ × ℚ)) × String)
    (days : List Day) :
    ∀ ed ∈ enrichItinerary place route days,
      ∀ e, ed.activities.head? = some e → e.travel_from_previous = none := by
  intro ed hed e he
  rw [enrichItinerary] at hed
  obtain ⟨d, _, rfl⟩ := List.mem_map.mp hed
  simp only [enrichDay] at he
  rw [List.head?_eq_getElem?, annotateTravel_getElem, if_neg (by omega)] at he
  rw [initEnrich, List.getElem?_map] at he
  cases ha : d.activities[0]? with
  | none => rw [ha] at he; simp at he
  | some a =>
    rw [ha] at he
    simp only [Option.map_some', Option.some.injEq] at he
    rw [← he]

theorem c7_first_activity_never_travel_witness :
    (⟨⟨"Morning", "P", "x"⟩, none, none⟩ : EnrichedActivity).travel_from_previous = none :=
  c7_first_activity_never_travel (fun _ => none) (fun _ _ => (none, "N/A"))
    [⟨1, "t", [⟨"Morning", "P", "x"⟩]⟩]
    ⟨1, "t", [⟨⟨"Morning", "P", "x"⟩, none, none⟩]⟩ (by decide)
    ⟨⟨"Morning", "P", "x"⟩, none, none⟩ (by decide)

/-- C8: when the place client fails for exactly the activity at day index
`di`, activity index `ai` (and succeeds for every other activity), the
enriched itinerary carries an absent detail for exactly that one activity
and each other activity carries precisely its own place-client result; the
enrichment pass always completes over the whole itinerary. -/
theorem c8_single_failure_isolated
    (place : String → Option PlaceDetails)
    (route : MapPoint → MapPoint → Option (List (ℚ × ℚ)) × String)
    (days : List Day) (di ai : Nat)
    (h : ∀ k d, days[k]? = some d → ∀ j a, d.activities[j]? = some a →
        (place a.poi_name = none ↔ (k = di ∧ j = ai))) :
    ∀ k ed, (enrichItinerary place route days)[k]? = some ed →
      ∀ j e, ed.activities[j]? = some e →
        e.details = place e.activity.poi_name
          ∧ (e.details = none ↔ (k = di ∧ j = ai)) := by
  intro k ed hk j e hj
  rw [enrichItinerary, List.getElem?_map] at hk
  cases hd : days[k]? with
  | none => rw [hd] at hk; simp at hk
  | some d =>
    rw [hd] at hk
    simp only [Option.map_some', Option.some.injEq] at hk
    subst hk
    simp only [enrichDay] at hj
    rw [annotateTravel_getElem] at hj
    split at hj
    · rw [initEnrich, List.getElem?_map] at hj
      cases ha : d.activities[j]? with
      | none => rw [ha] at hj; simp at hj
      | some a =>
        rw [ha] at hj
        simp only [Option.map_some', Option.map_map, Option.some.injEq] at hj
        subst hj
        exact ⟨rfl, h k d hd j a ha⟩
    · rw [initEnrich, List.getElem?_map] at hj
      cases ha : d.activities[j]? with
      | none => rw [ha] at hj; simp at hj
      | some a =>
        rw [ha] at hj
        simp only [Option.map_some', Option.some.injEq] at hj
        subst hj
        exact ⟨rfl, h k d hd j a ha⟩

theorem c8_single_failure_isolated_witness :
    ((⟨⟨"Afternoon", "X", "x"⟩, none, some "~ N/A by transit"⟩
          : EnrichedActivity).details = none ↔ (0 = 0 ∧ 1 = 1))
      ∧ (⟨⟨"Morning", "P0", "x"⟩,
            some ⟨some "P0", Rating.NA, none, some 1, some 1, none, none, []⟩,
            none⟩ : EnrichedActivity).details
          = placeFixC8 "P0" := by
  have h8 : ∀ k d, daysFixC8[k]? = some d → ∀ j a, d.activities[j]? = some a →
      (placeFixC8 a.poi_name = none ↔ (k = 0 ∧ j = 1)) := by
    intro k d hk j a ha
    match k, hk with
    | 0, hk =>
      injection hk with hk
      subst hk
      match j, ha with
      | 0, ha => injection ha with ha; subst ha; decide
      | 1, ha => injection ha with ha; subst ha; decide
      | 2, ha => injection ha with ha; subst ha; decide
      | j + 3, ha => simp [daysFixC8] at ha
    | 1, hk =>
      injection hk with hk
      subst hk
      match j, ha with
      | 0, ha => injection ha with ha; subst ha; decide
      | 1, ha => injection ha with ha; subst ha; decide
      | 2, ha => injection ha with ha; subst ha; decide
      | j + 3, ha => simp [daysFixC8] at ha
    | k + 2, hk => simp [daysFixC8] at hk
  have H := c8_single_failure_isolated placeFixC8 routeFixC8 daysFixC8 0 1 h8
  exact ⟨(H 0
      ⟨1, "a",
        [⟨⟨"Morning", "P0", "x"⟩,
            some ⟨some "P0", Rating.NA, none, some 1, some 1, none, none, []⟩, none⟩,
         ⟨⟨"Afternoon", "X", "x"⟩, none, some "~ N/A by transit"⟩,
         ⟨⟨"Evening", "P2", "x"⟩,
            some ⟨some "P2", Rating.NA, none, some 1, some 1, none, none, []⟩, none⟩]⟩
      (by decide) 1
      ⟨⟨"Afternoon", "X", "x"⟩, none, some "~ N/A by transit"⟩ (by decide)).2,
    (H 0
      ⟨1, "a",
        [⟨⟨"Morning", "P0", "x"⟩,
            some ⟨some "P0", Rating.NA, none, some 1, some 1, none, none, []⟩, none⟩,
         ⟨⟨"Afternoon", "X", "x"⟩, none, some "~ N/A by transit"⟩,
         ⟨⟨"Evening", "P2", "x"⟩,
            some ⟨some "P2", Rating.NA, none, some 1, some 1, none, none, []⟩, none⟩]⟩
      (by decide) 0
      ⟨⟨"Morning", "P0", "x"⟩,
          some ⟨some "P0", Rating.NA, none, some 1, some 1, none, none, []⟩, none⟩
      (by decide)).1⟩

/-- C1: evaluation of the enrichment loop at the failing input.  Day 1 has
activities `A0, A1, A2`; the place lookup fails for `A0` and resolves
coordinates for `A1` and `A2`; routing returns duration `"12 mins"` for the
single consecutive pair of resolved points, which is `(A1, A2)`.  The code
attaches the travel annotation to `activities[1]` — `A1`, the *first*
activity of the pair — and leaves `A2` (the second of the pair, which the
claim and the source's own comment designate) without one. -/
theorem c1_misattached_travel_eval :
    (enrichDay
        (fun s => if s = "A0" then none
          else some ⟨some s, Rating.NA, none, some 1, some 1, none, none, []⟩)
        (fun _ _ => (some [], "12 mins"))
        ⟨1, "t", [⟨"Morning", "A0", "x"⟩, ⟨"Afternoon", "A1", "x"⟩,
          ⟨"Evening", "A2", "x"⟩]⟩).map
      (fun e => e.travel_from_previous)
      = [none, some "~ 12 mins by transit", none] := by decide

/-- C10 counterexample: day with activities `B0, B1, B2` where `B0` fails to
resolve and `B1`, `B2` resolve; the Routing Client fails (transport error,
so it yields `(none, "N/A")`).  The consecutive pair of resolved activities
is `(B1, B2)`, yet the `"~ N/A by transit"` text is attached to `B1`
(activity index 1), and the second activity of the pair, `B2`, receives
nothing — contradicting the claim as stated. -/
theorem c10_na_counterexample :
    (enrichDay
        (fun s => if s = "B0" then none
          else some ⟨some s, Rating.NA, none, some 2, some 2, none, none, []⟩)
        (fun _ _ => get_directions_and_route (.error ()))
        ⟨1, "t", [⟨"Morning", "B0", "x"⟩, ⟨"Afternoon", "B1", "x"⟩,
          ⟨"Evening", "B2", "x"⟩]⟩).map
      (fun e => e.travel_from_previous)
      = [none, some "~ N/A by transit", none] := by decide

/-- C10 (amended): when the Routing Client fails for the `i`-th consecutive
pair of resolved day points (transport error, non-`OK` status, or no routes,
all of which make it return duration `"N/A"`), the activity at index `i + 1`
of the day's *activity list* still receives a "travel from previous"
value, with the literal text `"~ N/A by transit"`, rather than the field
being left absent. -/
theorem c10_na_amended
    (place : String → Option PlaceDetails)
    (route : MapPoint → MapPoint → Option (List (ℚ × ℚ)) × String)
    (d : Day) (i : Nat)
    (hi : i + 1 < (dayPoints d (initEnrich place d)).length)
    (hroute : (route ((dayPoints d (initEnrich place d)).getD i default)
        ((dayPoints d (initEnrich place d)).getD (i + 1) default)).2 = "N/A") :
    (∃ e, (enrichDay place route d)[i + 1]? = some e
        ∧ e.travel_from_previous = some "~ N/A by transit")
      ∧ get_directions_and_route (.error ()) = (none, "N/A")
      ∧ (∀ dd : DirectionsData, dd.status ≠ "OK" →
          get_directions_and_route (.ok dd) = (none, "N/A"))
      ∧ (∀ dd : DirectionsData, dd.routes = [] →
          get_directions_and_route (.ok dd) = (none, "N/A")) := by
  refine ⟨?_, rfl, ?_, ?_⟩
  · have hlen : (dayPoints d (initEnrich place d)).length ≤ (initEnrich place d).length := by
      rw [dayPoints]
      exact List.length_filterMap_le _ _
    have hes : i + 1 < (initEnrich place d).length := lt_of_lt_of_le hi hlen
    refine ⟨setTravel
      (travelText (route ((dayPoints d (initEnrich place d)).getD i default)
        ((dayPoints d (initEnrich place d)).getD (i + 1) default)).2)
      ((initEnrich place d).get ⟨i + 1, hes⟩), ?_, ?_⟩
    · simp only [enrichDay]
      rw [annotateTravel_getElem, if_pos (by omega)]
      rw [List.getElem?_eq_getElem hes]
      simp only [Option.map_some', Option.some.injEq]
      rw [show i + 1 - 1 = i from rfl]
      rfl
    · rw [hroute]
      rfl
  · intro dd hdd
    cases hr : dd.routes with
    | nil => simp [get_directions_and_route, hr]
    | cons r rs => simp [get_directions_and_route, hr, hdd]
  · intro dd hdd
    simp [get_directions_and_route, hdd]

theorem c10_na_amended_witness :
    (∃ e, (enrichDay
        (fun s => some ⟨some s, Rating.NA, none, some 3, some 3, none, none, []⟩)
        (fun _ _ => (none, "N/A"))
        ⟨1, "t", [⟨"Morning", "C0", "x"⟩, ⟨"Afternoon", "C1", "x"⟩]⟩)[0 + 1]? = some e
          ∧ e.travel_from_previous = some "~ N/A by transit")
      ∧ get_directions_and_route (.error ()) = (none, "N/A")
      ∧ (∀ dd : DirectionsData, dd.status ≠ "OK" →
          get_directions_and_route (.ok dd) = (none, "N/A"))
      ∧ (∀ dd : DirectionsData, dd.routes = [] →
          get_directions_and_route (.ok dd) = (none, "N/A")) :=
  c10_na_amended
    (fun s => some ⟨some s, Rating.NA, none, some 3, some 3, none, none, []⟩)
    (fun _ _ => (none, "N/A"))
    ⟨1, "t", [⟨"Morning", "C0", "x"⟩, ⟨"Afternoon", "C1", "x"⟩]⟩ 0
    (by decide) (by decide)

/-- C2: evaluation of the Geocoding Client at the failing input.  On an
API-level no-results status (`"ZERO_RESULTS"`, with no transport error) the
function falls off its end and returns the bare Python `None` — not a value
destructurable into a `(latitude, longitude)` pair, so the caller's tuple
unpacking `lat, lon = get_destination_coords(...)` raises `TypeError`.  Only
the transport-error branch returns the destructurable `(None, None)`. -/
theorem c2_geocode_zero_results_eval :
    get_destination_coords (.response "ZERO_RESULTS" []) = some .pyNone
      ∧ get_destination_coords .reqError = some (.pair none none) := by
  exact ⟨by decide, rfl⟩

/-- C9: a successfully returned `PlaceDetails` always carries between 1 and
3 photo entries, and when the provider returns no photos (the `photos` key
absent, or present and empty) the list is exactly the one placeholder. -/
theorem c9_photos_bounds (apiKey place_name : String)
    (search : Except Unit (List String))
    (detailsReq : String → Except Unit PlaceData) :
    (∀ d, get_place_details apiKey place_name search detailsReq = some d →
        1 ≤ d.photos.length ∧ d.photos.length ≤ 3)
      ∧ (∀ place_id rest pd, search = .ok (place_id :: rest) →
          detailsReq place_id = .ok pd → pd.photos.getD [] = [] →
          (get_place_details apiKey place_name search detailsReq).map
              (fun d => d.photos)
            = some [placeholderPhoto place_name]) := by
  constructor
  · intro d hd
    cases search with
    | error u => simp [get_place_details] at hd
    | ok results =>
      cases results with
      | nil => simp [get_place_details] at hd
      | cons pid rest =>
        cases hreq : detailsReq pid with
        | error u => simp [get_place_details, hreq] at hd
        | ok pd =>
          simp only [get_place_details, hreq, Option.some.injEq] at hd
          subst hd
          cases hph : pd.photos with
          | none => simp [hph, placeholderPhoto]
          | some ps =>
            simp only [hph]
            by_cases hempty : ((ps.take 3).map (photoUrl apiKey)) = []
            · simp [hempty]
            · rw [if_neg hempty]
              constructor
              · exact List.length_pos.mpr hempty
              · simp only [List.length_map, List.length_take]
                omega
  · intro place_id rest pd hs hreq hph
    subst hs
    simp only [get_place_details, hreq]
    cases hp2 : pd.photos with
    | none => simp
    | some ps =>
      rw [hp2] at hph
      simp only [Option.getD_some] at hph
      subst hph
      simp

theorem c9_photos_bounds_witness :
    (1 ≤ ([placeholderPhoto "Cafe X"] : List String).length
        ∧ ([placeholderPhoto "Cafe X"] : List String).length ≤ 3)
      ∧ (get_place_details "k" "Cafe X" (.ok ["pid"])
            (fun _ => .ok ⟨none, none, none, none, none, none, none⟩)).map
          (fun d => d.photos) = some [placeholderPhoto "Cafe X"] :=
  ⟨(c9_photos_bounds "k" "Cafe X" (.ok ["pid"])
      (fun _ => .ok ⟨none, none, none, none, none, none, none⟩)).1
      ⟨none, Rating.NA, none, none, none, none, none, [placeholderPhoto "Cafe X"]⟩
      (by decide),
   (c9_photos_bounds "k" "Cafe X" (.ok ["pid"])
      (fun _ => .ok ⟨none, none, none, none, none, none, none⟩)).2
      "pid" [] ⟨none, none, none, none, none, none, none⟩ rfl rfl (by decide)⟩

/-! ## Lemmas: weather aggregation -/

theorem firstSeenAux_mem {α : Type} [DecidableEq α] :
    ∀ (l seen : List α) (a : α), a ∈ firstSeenAux seen l ↔ (a ∈ l ∧ a ∉ seen) := by
  intro l
  induction l with
  | nil => intro seen a; simp [firstSeenAux]
  | cons d rest ih =>
    intro seen a
    by_cases hd : d ∈ seen
    · rw [firstSeenAux, if_pos hd, ih]
      simp only [List.mem_cons]
      constructor
      · rintro ⟨h1, h2⟩
        exact ⟨Or.inr h1, h2⟩
      · rintro ⟨h1 | h1, h2⟩
        · exact absurd (h1 ▸ hd) h2
        · exact ⟨h1, h2⟩
    · rw [firstSeenAux, if_neg hd]
      simp only [List.mem_cons, ih, List.mem_cons]
      constructor
      · rintro (rfl | ⟨h1, h2⟩)
        · exact ⟨Or.inl rfl, hd⟩
        · exact ⟨Or.inr h1, fun hs => h2 (Or.inr hs)⟩
      · rintro ⟨rfl | h1, h2⟩
        · exact Or.inl rfl
        · by_cases had : a = d
          · exact Or.inl had
          · refine Or.inr ⟨h1, fun hs => ?_⟩
            simp only [List.mem_cons] at hs
            rcases hs with h | h
            · exact had h
            · exact h2 h

theorem firstSeenAux_nodup {α : Type} [DecidableEq α] :
    ∀ (l seen : List α), (firstSeenAux seen l).Nodup := by
  intro l
  induction l with
  | nil => intro seen; simp [firstSeenAux]
  | cons d rest ih =>
    intro seen
    by_cases hd : d ∈ seen
    · rw [firstSeenAux, if_pos hd]
      exact ih seen
    · rw [firstSeenAux, if_neg hd]
      refine List.nodup_cons.mpr ⟨?_, ih (d :: seen)⟩
      intro hmem
      exact ((firstSeenAux_mem rest (d :: seen) d).mp hmem).2 (List.mem_cons_self d seen)

theorem firstSeenAux_append_singleton {α : Type} [DecidableEq α] :
    ∀ (l seen : List α) (a : α),
      firstSeenAux seen (l ++ [a])
        = firstSeenAux seen l ++ (if a ∈ seen ∨ a ∈ l then [] else [a]) := by
  intro l
  induction l with
  | nil =>
    intro seen a
    by_cases ha : a ∈ seen <;> simp [firstSeenAux, ha]
  | cons d rest ih =>
    intro seen a
    by_cases hd : d ∈ seen
    · rw [List.cons_append, firstSeenAux, if_pos hd, firstSeenAux, if_pos hd, ih]
      have hiff : (a ∈ seen ∨ a ∈ rest) ↔ (a ∈ seen ∨ a ∈ d :: rest) := by
        simp only [List.mem_cons]
        constructor
        · rintro (h | h)
          · exact Or.inl h
          · exact Or.inr (Or.inr h)
        · rintro (h | rfl | h)
          · exact Or.inl h
          · exact Or.inl hd
          · exact Or.inr h
      rw [if_congr hiff rfl rfl]
    · rw [List.cons_append, firstSeenAux, if_neg hd, firstSeenAux, if_neg hd, ih]
      have hiff : (a ∈ d :: seen ∨ a ∈ rest) ↔ (a ∈ seen ∨ a ∈ d :: rest) := by
        simp only [List.mem_cons]
        constructor
        · rintro (⟨rfl | h⟩ | h)
          · exact Or.inr (Or.inl rfl)
          · exact Or.inl h
          · exact Or.inr (Or.inr h)
        · rintro (h | rfl | h)
          · exact Or.inl (Or.inr h)
          · exact Or.inl (Or.inl rfl)
          · exact Or.inr h
      rw [if_congr hiff rfl rfl, List.cons_append]

theorem firstSeen_mem {α : Type} [DecidableEq α] (l : List α) (a : α) :
    a ∈ firstSeen l ↔ a ∈ l := by
  rw [firstSeen, firstSeenAux_mem]
  simp

theorem firstSeen_nodup {α : Type} [DecidableEq α] (l : List α) :
    (firstSeen l).Nodup :=
  firstSeenAux_nodup l []

theorem firstSeen_append_singleton {α : Type} [DecidableEq α] (l : List α) (a : α) :
    firstSeen (l ++ [a]) = firstSeen l ++ (if a ∈ l then [] else [a]) := by
  rw [firstSeen, firstSeenAux_append_singleton, firstSeen]
  congr 1
  have : (a ∈ ([] : List α) ∨ a ∈ l) ↔ a ∈ l := by simp
  rw [if_congr this rfl rfl]

theorem firstSeen_length_toFinset {α : Type} [DecidableEq α] (l : List α) :
    (firstSeen l).length = l.toFinset.card := by
  have h1 : (firstSeen l).toFinset = l.toFinset := by
    ext a
    simp [List.mem_toFinset, firstSeen_mem]
  rw [← h1, List.toFinset_card_of_nodup (firstSeen_nodup l)]

theorem addItem_map_not_mem (ds : List String) (f : String → List ℚ)
    (g : String → List WRec) (x : WItem) (hx : dateOf x ∉ ds) :
    addItem (ds.map (fun d => (d, f d, g d))) x
      = ds.map (fun d => (d, f d, g d)) ++ [(dateOf x, [x.temp], [x.w])] := by
  induction ds with
  | nil => rfl
  | cons d ds ih =>
    have hne : ¬(dateOf x = d) := fun he => hx (he ▸ List.mem_cons_self d ds)
    simp only [List.map_cons, addItem, if_neg hne, List.cons_append]
    rw [ih (fun h => hx (List.mem_cons_of_mem _ h))]

theorem addItem_map_mem (ds : List String) (f : String → List ℚ)
    (g : String → List WRec) (x : WItem) (hx : dateOf x ∈ ds) (hnd : ds.Nodup) :
    addItem (ds.map (fun d => (d, f d, g d))) x
      = ds.map (fun d => if d = dateOf x
          then (d, f d ++ [x.temp], g d ++ [x.w]) else (d, f d, g d)) := by
  induction ds with
  | nil => simp at hx
  | cons d ds ih =>
    by_cases hd : dateOf x = d
    · simp only [List.map_cons, addItem, if_pos hd]
      rw [if_pos hd.symm]
      congr 1
      refine (List.map_congr_left ?_).symm
      intro d' hd'
      rw [if_neg]
      intro he
      rw [he, hd] at hd'
      exact (List.nodup_cons.mp hnd).1 hd'
    · have hx' : dateOf x ∈ ds := by
        cases List.mem_cons.mp hx with
        | inl h => exact absurd h hd
        | inr h => exact h
      simp only [List.map_cons, addItem, if_neg hd]
      rw [if_neg (fun h : d = dateOf x => hd h.symm)]
      rw [ih hx' (List.nodup_cons.mp hnd).2]

theorem daily_forecasts_closed (items : List WItem) :
    daily_forecasts items
      = (firstSeen (items.map dateOf)).map
          (fun d => (d,
            ((items.filter (fun it => dateOf it == d)).map (fun it => it.temp)),
            ((items.filter (fun it => dateOf it == d)).map (fun it => it.w)))) := by
  induction items using List.reverseRecOn with
  | nil => rfl
  | append_singleton l x ih =>
    have hfold : daily_forecasts (l ++ [x]) = addItem (daily_forecasts l) x := by
      rw [daily_forecasts, daily_forecasts, List.foldl_append, List.foldl_cons,
        List.foldl_nil]
    have hmapd : (l ++ [x]).map dateOf = l.map dateOf ++ [dateOf x] := by simp
    rw [hfold, ih, hmapd, firstSeen_append_singleton]
    by_cases hmem : dateOf x ∈ l.map dateOf
    · rw [if_pos hmem, List.append_nil]
      rw [addItem_map_mem _ _ _ _
        ((firstSeen_mem (l.map dateOf) (dateOf x)).mpr hmem)
        (firstSeen_nodup (l.map dateOf))]
      apply List.map_congr_left
      intro d hd
      by_cases hdx : d = dateOf x
      · rw [if_pos hdx]
        have hfx : (dateOf x == d) = true := by
          rw [beq_iff_eq]
          exact hdx.symm
        have hf : ∀ (h : List WItem), (h ++ [x]).filter (fun it => dateOf it == d)
            = h.filter (fun it => dateOf it == d) ++ [x] := by
          intro h
          rw [List.filter_append]
          simp [List.filter_cons, hfx]
        rw [hf l]
        simp
      · rw [if_neg hdx]
        have hfx : (dateOf x == d) = false := by
          rw [beq_eq_false_iff_ne]
          exact fun h => hdx h.symm
        have hf : (l ++ [x]).filter (fun it => dateOf it == d)
            = l.filter (fun it => dateOf it == d) := by
          rw [List.filter_append]
          simp [List.filter_cons, hfx]
        rw [hf]
    · rw [if_neg hmem]
      rw [addItem_map_not_mem _ _ _ _
        (fun h => hmem ((firstSeen_mem (l.map dateOf) (dateOf x)).mp h))]
      rw [List.map_append]
      congr 1
      · apply List.map_congr_left
        intro d hd
        have hdl : d ∈ l.map dateOf := (firstSeen_mem (l.map dateOf) d).mp hd
        have hdx : ¬(dateOf x = d) := by
          intro he
          rw [he] at hmem
          exact hmem hdl
        have hfx : (dateOf x == d) = false := by
          rw [beq_eq_false_iff_ne]
          exact hdx
        have hf : (l ++ [x]).filter (fun it => dateOf it == d)
            = l.filter (fun it => dateOf it == d) := by
          rw [List.filter_append]
          simp [List.filter_cons, hfx]
        rw [hf]
      · have hnil : l.filter (fun it => dateOf it == dateOf x) = [] := by
          rw [List.filter_eq_nil_iff]
          intro it hit hbe
          rw [beq_iff_eq] at hbe
          exact hmem (hbe ▸ List.mem_map_of_mem dateOf hit)
        have hfx : (dateOf x == dateOf x) = true := by rw [beq_iff_eq]
        rw [List.map_cons, List.map_nil, List.filter_append, hnil]
        simp [List.filter_cons, hfx]

theorem pyMaxGo_spec {α : Type} (f : α → Nat) :
    ∀ (l : List α) (b : α),
      ∃ i, ∃ hi : i < (b :: l).length,
        pyMaxGo f b l = (b :: l).get ⟨i, hi⟩
          ∧ (∀ x ∈ b :: l, f x ≤ f (pyMaxGo f b l))
          ∧ (∀ y ∈ (b :: l).take i, f y < f (pyMaxGo f b l)) := by
  intro l
  induction l with
  | nil =>
    intro b
    refine ⟨0, by simp, rfl, ?_, by simp⟩
    intro x hx
    simp only [List.mem_singleton] at hx
    subst hx
    exact le_rfl
  | cons x xs ih =>
    intro b
    by_cases hxb : f x > f b
    · obtain ⟨i, hi, heq, hbound, hstrict⟩ := ih x
      have hr : pyMaxGo f b (x :: xs) = pyMaxGo f x xs := by
        rw [pyMaxGo, if_pos hxb]
      have hfx : f x ≤ f (pyMaxGo f x xs) := hbound x (List.mem_cons_self x xs)
      refine ⟨i + 1, by simpa using hi, ?_, ?_, ?_⟩
      · rw [hr, heq]
        rfl
      · intro y hy
        rw [hr]
        rcases List.mem_cons.mp hy with rfl | hy2
        · exact le_trans (le_of_lt hxb) hfx
        · exact hbound y hy2
      · intro y hy
        rw [List.take_succ_cons] at hy
        rw [hr]
        rcases List.mem_cons.mp hy with rfl | hy2
        · exact lt_of_lt_of_le hxb hfx
        · exact hstrict y hy2
    · obtain ⟨i, hi, heq, hbound, hstrict⟩ := ih b
      have hr : pyMaxGo f b (x :: xs) = pyMaxGo f b xs := by
        rw [pyMaxGo, if_neg hxb]
      have hfb : f b ≤ f (pyMaxGo f b xs) := hbound b (List.mem_cons_self b xs)
      have hfxle : f x ≤ f b := Nat.le_of_not_lt hxb
      cases i with
      | zero =>
        refine ⟨0, by simp, ?_, ?_, by simp⟩
        · rw [hr, heq]
          rfl
        · intro y hy
          rw [hr]
          rcases List.mem_cons.mp hy with rfl | hy2
          · exact hbound _ (List.mem_cons_self _ _)
          · rcases List.mem_cons.mp hy2 with rfl | hy3
            · exact le_trans hfxle hfb
            · exact hbound y (List.mem_cons_of_mem _ hy3)
      | succ k =>
        have hb_strict : f b < f (pyMaxGo f b xs) := by
          apply hstrict
          rw [List.take_succ_cons]
          exact List.mem_cons_self b _
        refine ⟨k + 2, by simpa using hi, ?_, ?_, ?_⟩
        · rw [hr, heq]
          rfl
        · intro y hy
          rw [hr]
          rcases List.mem_cons.mp hy with rfl | hy2
          · exact hfb
          · rcases List.mem_cons.mp hy2 with rfl | hy3
            · exact le_trans hfxle hfb
            · exact hbound y (List.mem_cons_of_mem _ hy3)
        · intro y hy
          rw [List.take_succ_cons, List.take_succ_cons] at hy
          rw [hr]
          rcases List.mem_cons.mp hy with rfl | hy2
          · exact hb_strict
          · rcases List.mem_cons.mp hy2 with rfl | hy3
            · exact lt_of_le_of_lt hfxle hb_strict
            · apply hstrict
              rw [List.take_succ_cons]
              exact List.mem_cons_of_mem _ hy3

theorem pyMaxCount_spec (ws : List WRec) (hne : ws ≠ []) :
    ∃ i, ∃ hi : i < ws.length,
      pyMaxCount ws = ws.get ⟨i, hi⟩
        ∧ (∀ x ∈ ws, ws.count x ≤ ws.count (pyMaxCount ws))
        ∧ (∀ y ∈ ws.take i, ws.count y < ws.count (pyMaxCount ws)) := by
  match ws, hne with
  | w :: rest, _ =>
    obtain ⟨i, hi, heq, hbound, hstrict⟩ :=
      pyMaxGo_spec (fun x => (w :: rest).count x) rest w
    exact ⟨i, hi, heq, hbound, hstrict⟩

/-- C4 (amended: the dominant condition is computed over whole `weather[0]`
records — id, label, description, icon — not over condition labels): for
every forecast-record list and requested duration `d`, the aggregator
outputs exactly `min(K, d)` records for `K` distinct calendar dates, one per
distinct date in first-seen order, each carrying the condition label of that
date's most frequently occurring weather record, ties broken in favour of
the first-encountered maximum. -/
theorem c4_aggregator_shape (items : List WItem) (duration : Nat) :
    ∃ out, get_weather_forecast (.ok items) duration = some out
      ∧ out.length = min ((items.map dateOf).toFinset.card) duration
      ∧ out.map (fun fd => fd.date) = (firstSeen (items.map dateOf)).take duration
      ∧ ∀ fd ∈ out, ∃ i, ∃ hi : i < (dateGroup items fd.date).length,
          fd.condition = ((dateGroup items fd.date).get ⟨i, hi⟩).main
            ∧ (∀ x ∈ dateGroup items fd.date,
                (dateGroup items fd.date).count x
                  ≤ (dateGroup items fd.date).count ((dateGroup items fd.date).get ⟨i, hi⟩))
            ∧ (∀ y ∈ (dateGroup items fd.date).take i,
                (dateGroup items fd.date).count y
                  < (dateGroup items fd.date).count ((dateGroup items fd.date).get ⟨i, hi⟩)) := by
  refine ⟨((daily_forecasts items).map processGroup).take duration, rfl, ?_, ?_, ?_⟩
  · rw [daily_forecasts_closed]
    simp only [List.length_take, List.length_map]
    rw [firstSeen_length_toFinset, Nat.min_comm]
  · rw [daily_forecasts_closed, List.map_take, List.map_map, List.map_map]
    congr 1
    refine (List.map_congr_left ?_).trans (List.map_id _)
    intro d hd
    rfl
  · intro fd hfd
    have hfd2 : fd ∈ (daily_forecasts items).map processGroup :=
      List.mem_of_mem_take hfd
    rw [daily_forecasts_closed, List.map_map] at hfd2
    obtain ⟨d0, hd0, rfl⟩ := List.mem_map.mp hfd2
    have hne : dateGroup items d0 ≠ [] := by
      have hd0mem : d0 ∈ items.map dateOf := (firstSeen_mem _ _).mp hd0
      obtain ⟨it, hit, rfl⟩ := List.mem_map.mp hd0mem
      have hitf : it ∈ items.filter (fun i2 => dateOf i2 == dateOf it) :=
        List.mem_filter.mpr ⟨hit, by rw [beq_iff_eq]⟩
      intro hnil
      rw [dateGroup, List.map_eq_nil_iff] at hnil
      rw [hnil] at hitf
      exact absurd hitf (List.not_mem_nil _)
    obtain ⟨i, hi, heq, hbound, hstrict⟩ := pyMaxCount_spec (dateGroup items d0) hne
    change ∃ i, ∃ hi : i < (dateGroup items d0).length,
      (pyMaxCount (dateGroup items d0)).main
          = ((dateGroup items d0).get ⟨i, hi⟩).main
        ∧ (∀ x ∈ dateGroup items d0,
            (dateGroup items d0).count x
              ≤ (dateGroup items d0).count ((dateGroup items d0).get ⟨i, hi⟩))
        ∧ (∀ y ∈ (dateGroup items d0).take i,
            (dateGroup items d0).count y
              < (dateGroup items d0).count ((dateGroup items d0).get ⟨i, hi⟩))
    exact ⟨i, hi, congrArg WRec.main heq, heq ▸ hbound, heq ▸ hstrict⟩

/-- C4 counterexample: one calendar date whose `weather[0]` records are
three pairwise-distinct `Clouds` records (scattered / broken / overcast,
different icons) and two identical `Rain` records.  The label `"Clouds"`
occurs 3 times and `"Rain"` only 2 times, yet the aggregator outputs
condition `"Rain"`, because `max(..., key=list.count)` counts whole
`weather[0]` dicts — the `Rain` record has multiplicity 2 while each
`Clouds` record is unique.  The claim's "most frequently occurring
condition label" is therefore false as stated. -/
theorem c4_label_frequency_counterexample :
    (get_weather_forecast (.ok
        [⟨"d1 00", 10, ⟨802, "Clouds", "scattered clouds", "03d"⟩⟩,
         ⟨"d1 03", 10, ⟨803, "Clouds", "broken clouds", "04d"⟩⟩,
         ⟨"d1 06", 10, ⟨804, "Clouds", "overcast clouds", "04n"⟩⟩,
         ⟨"d1 09", 10, ⟨500, "Rain", "light rain", "10d"⟩⟩,
         ⟨"d1 12", 10, ⟨500, "Rain", "light rain", "10d"⟩⟩]) 5).map
        (fun out => out.map (fun fd => fd.condition))
      = some ["Rain"]
    ∧ (([⟨"d1 00", 10, ⟨802, "Clouds", "scattered clouds", "03d"⟩⟩,
         ⟨"d1 03", 10, ⟨803, "Clouds", "broken clouds", "04d"⟩⟩,
         ⟨"d1 06", 10, ⟨804, "Clouds", "overcast clouds", "04n"⟩⟩,
         ⟨"d1 09", 10, ⟨500, "Rain", "light rain", "10d"⟩⟩,
         ⟨"d1 12", 10, ⟨500, "Rain", "light rain", "10d"⟩⟩] : List WItem).map
        (fun it => it.w.main)).count "Clouds" = 3
    ∧ (([⟨"d1 00", 10, ⟨802, "Clouds", "scattered clouds", "03d"⟩⟩,
         ⟨"d1 03", 10, ⟨803, "Clouds", "broken clouds", "04d"⟩⟩,
         ⟨"d1 06", 10, ⟨804, "Clouds", "overcast clouds", "04n"⟩⟩,
         ⟨"d1 09", 10, ⟨500, "Rain", "light rain", "10d"⟩⟩,
         ⟨"d1 12", 10, ⟨500, "Rain", "light rain", "10d"⟩⟩] : List WItem).map
        (fun it => it.w.main)).count "Rain" = 2 := by
  exact ⟨by decide, by decide, by decide⟩

theorem firstSeenAux_all_in_seen {α : Type} [DecidableEq α] :
    ∀ (l seen : List α), (∀ a ∈ l, a ∈ seen) → firstSeenAux seen l = [] := by
  intro l
  induction l with
  | nil => intro seen _; rfl
  | cons d rest ih =>
    intro seen h
    rw [firstSeenAux, if_pos (h d (List.mem_cons_self d rest))]
    exact ih seen (fun a ha => h a (List.mem_cons_of_mem _ ha))

theorem firstSeen_all_eq {α : Type} [DecidableEq α] (l : List α) (d0 : α)
    (hne : l ≠ []) (hall : ∀ a ∈ l, a = d0) : firstSeen l = [d0] := by
  match l, hne with
  | a :: rest, _ =>
    have ha : a = d0 := hall a (List.mem_cons_self a rest)
    subst ha
    rw [firstSeen, firstSeenAux, if_neg (List.not_mem_nil a)]
    rw [firstSeenAux_all_in_seen rest [a]]
    intro b hb
    rw [hall b (List.mem_cons_of_mem _ hb)]
    exact List.mem_cons_self a []

/-- C5 (amended: the temperature is the arithmetic mean *rounded to one
decimal place*, Python `round` semantics, i.e. half to even on this exact
rational model): for records all sharing one calendar date, the aggregator
outputs exactly one record for that date, whose temperature is the rounded
mean of the N input temperatures. -/
theorem c5_mean_rounded (items : List WItem) (d0 : String) (duration : Nat)
    (hne : items ≠ []) (hall : ∀ it ∈ items, dateOf it = d0) (hdur : 1 ≤ duration) :
    ∃ fd, get_weather_forecast (.ok items) duration = some [fd]
      ∧ fd.date = d0
      ∧ fd.avg_temp
          = round1 ((items.map (fun it => it.temp)).sum / (items.length : ℚ)) := by
  have hmapne : items.map dateOf ≠ [] := by
    intro h
    exact hne (List.map_eq_nil_iff.mp h)
  have hmapall : ∀ a ∈ items.map dateOf, a = d0 := by
    intro a ha
    obtain ⟨it, hit, rfl⟩ := List.mem_map.mp ha
    exact hall it hit
  have hfs : firstSeen (items.map dateOf) = [d0] :=
    firstSeen_all_eq _ _ hmapne hmapall
  have hfilter : items.filter (fun it => dateOf it == d0) = items := by
    rw [List.filter_eq_self]
    intro it hit
    rw [beq_iff_eq]
    exact hall it hit
  rw [get_weather_forecast, daily_forecasts_closed, hfs]
  simp only [List.map_cons, List.map_nil, hfilter]
  rw [List.take_of_length_le (by simpa using hdur)]
  refine ⟨processGroup
    (d0, items.map (fun it => it.temp), items.map (fun it => it.w)), ?_, ?_, ?_⟩
  · rfl
  · rfl
  · simp only [processGroup]
    rw [List.length_map]

theorem c5_mean_rounded_witness :
    ∃ fd, get_weather_forecast (.ok
        [⟨"d 00", 1, ⟨800, "C", "c", "i"⟩⟩, ⟨"d 06", 2, ⟨800, "C", "c", "i"⟩⟩]) 1 = some [fd]
      ∧ fd.date = "d"
      ∧ fd.avg_temp
          = round1 ((([⟨"d 00", 1, ⟨800, "C", "c", "i"⟩⟩, ⟨"d 06", 2, ⟨800, "C", "c", "i"⟩⟩]
              : List WItem).map (fun it => it.temp)).sum
            / (([⟨"d 00", 1, ⟨800, "C", "c", "i"⟩⟩, ⟨"d 06", 2, ⟨800, "C", "c", "i"⟩⟩]
              : List WItem).length : ℚ)) :=
  c5_mean_rounded [⟨"d 00", 1, ⟨800, "C", "c", "i"⟩⟩, ⟨"d 06", 2, ⟨800, "C", "c", "i"⟩⟩] "d" 1
    (by decide) (by decide) (by decide)

/-- C5 counterexample: three records sharing one date with temperatures
`1, 1, 2`.  The arithmetic mean is `4/3`, but the code stores
`round(avg_temp, 1) = 1.3`, so the output temperature does not equal the
mean. -/
theorem c5_rounding_counterexample :
    (get_weather_forecast (.ok
        [⟨"d 00", 1, ⟨800, "C", "c", "i"⟩⟩, ⟨"d 03", 1, ⟨800, "C", "c", "i"⟩⟩,
         ⟨"d 06", 2, ⟨800, "C", "c", "i"⟩⟩]) 3).map
        (fun out => out.map (fun fd => fd.avg_temp))
      = some [13/10]
    ∧ ((13 : ℚ)/10) ≠ ((1 : ℚ) + 1 + 2) / 3 := by
  constructor
  · have h1 : daily_forecasts
        [⟨"d 00", 1, ⟨800, "C", "c", "i"⟩⟩, ⟨"d 03", 1, ⟨800, "C", "c", "i"⟩⟩, ⟨"d 06", 2, ⟨800, "C", "c", "i"⟩⟩]
        = [("d", [1, 1, 2], [⟨800, "C", "c", "i"⟩, ⟨800, "C", "c", "i"⟩, ⟨800, "C", "c", "i"⟩])] := by decide
    rw [get_weather_forecast, h1]
    simp only [List.map_cons, List.map_nil, List.take, processGroup, Option.map_some',
      Option.some.injEq]
    have hfloor : (⌊(10 : ℚ) * (([1, 1, 2] : List ℚ).sum / (([(1 : ℚ), 1, 2]).length : ℚ))⌋ : ℤ)
        = 13 := by
      norm_num [Int.floor_eq_iff]
    norm_num [round1, rhe, hfloor]
  · norm_num
